import Mathlib

/-!
Verification of the sketchspace server (src/index.js): a shallow embedding of
its board-persistence endpoints (MongoDB `updateOne` / `deleteOne` on the
`boards` collection) and its socket.io session layer, with theorems checking
the natural-language specification against the code.
-/

namespace SketchSpace

/-- A persisted board record, one document of the `boards` collection.
Fields written by `$set` / `$setOnInsert` may be absent or null in BSON when
the request body omitted them (JS destructuring yields `undefined`), which we
model with `Option`.  `collaborators` is a BSON array manipulated by
`$addToSet`; its members likewise may be null. -/
structure Board where
  roomId : String
  name : Option String
  elements : Option (List String)
  owner : Option String
  collaborators : List (Option String)
  lastModified : Nat
deriving Repr, DecidableEq

/-- The `boards` collection: a sequence of documents. -/
abbrev Store := List Board

/-- Result of a MongoDB `updateOne`: how many documents the filter matched and
whether an upsert inserted a new document. -/
structure UpdateResult where
  matchedCount : Nat
  upsertedCount : Nat
deriving Repr, DecidableEq

/-- Result of a MongoDB `deleteOne`. -/
structure DeleteResult where
  deletedCount : Nat
deriving Repr, DecidableEq

/-- The filter `{ roomId: v }` where `v` comes from the request and may be
`undefined` (`none`); a document matches when its `roomId` equals `v`. -/
def roomFilter (v : Option String) (b : Board) : Bool :=
  some b.roomId == v

/-- `boardCollection.findOne({ roomId: id })` — first matching document, from
GET `/board/:roomId`. -/
def findOne (roomId : String) (store : Store) : Option Board :=
  store.find? (roomFilter (some roomId))

/-- Apply `f` to the first element satisfying `p`, leaving the rest unchanged:
the effect of an `updateOne` whose filter matched. -/
def updateFirst (p : Board → Bool) (f : Board → Board) : Store → Store
  | [] => []
  | b :: bs => if p b then f b :: bs else b :: updateFirst p f bs

/-- PUT `/board/save/:roomId`: `updateOne({roomId: id}, { $set: {name,
elements, lastModified: now}, $setOnInsert: {owner: userEmail,
collaborators: []} }, {upsert: true})`.  On a match only the `$set` fields
change; with no match the upsert inserts a document carrying both the `$set`
and the `$setOnInsert` fields and the filter's `roomId`. -/
def boardSave (roomId : String) (name : Option String)
    (elements : Option (List String)) (userEmail : Option String) (now : Nat)
    (store : Store) : UpdateResult × Store :=
  match store.find? (roomFilter (some roomId)) with
  | some _ =>
      (⟨1, 0⟩, updateFirst (roomFilter (some roomId))
        (fun b => { b with name := name, elements := elements, lastModified := now }) store)
  | none =>
      (⟨0, 1⟩, store ++ [{ roomId := roomId, name := name, elements := elements,
                           owner := userEmail, collaborators := [], lastModified := now }])

/-- `$addToSet` on a BSON array: append the value unless already present. -/
def addToSet (x : Option String) (xs : List (Option String)) : List (Option String) :=
  if x ∈ xs then xs else xs ++ [x]

/-- POST `/board/invite`: `updateOne({roomId}, { $addToSet: {collaborators:
inviteeEmail} })` with no upsert option; the `roomId` filter value comes from
the request body and may be absent. -/
def boardInvite (roomId : Option String) (inviteeEmail : Option String)
    (store : Store) : UpdateResult × Store :=
  match store.find? (roomFilter roomId) with
  | some _ =>
      (⟨1, 0⟩, updateFirst (roomFilter roomId)
        (fun b => { b with collaborators := addToSet inviteeEmail b.collaborators }) store)
  | none => (⟨0, 0⟩, store)

/-- DELETE `/board/delete/:roomId`: `deleteOne({roomId})` — removes the first
matching document, reporting how many were deleted. -/
def boardDelete (roomId : String) (store : Store) : DeleteResult × Store :=
  match store.find? (roomFilter (some roomId)) with
  | some _ => (⟨1⟩, store.eraseP (roomFilter (some roomId)))
  | none => (⟨0⟩, store)

/-- Body of a PUT `/board/save/:roomId` request after
`const {name, elements, userEmail} = req.body`: each field may be absent. -/
structure SaveBody where
  name : Option String
  elements : Option (List String)
  userEmail : Option String
deriving Repr, DecidableEq

/-- Body of a POST `/board/invite` request after
`const {roomId, inviteeEmail} = req.body`. -/
structure InviteBody where
  roomId : Option String
  inviteeEmail : Option String
deriving Repr, DecidableEq

/-- The PUT `/board/save/:roomId` handler: destructures the body and calls
`updateOne` unconditionally — the source performs no validation of the body
fields before the storage call. -/
def handleSavePut (roomId : String) (body : SaveBody) (now : Nat)
    (store : Store) : UpdateResult × Store :=
  boardSave roomId body.name body.elements body.userEmail now store

/-- The POST `/board/invite` handler: destructures the body and calls
`updateOne` unconditionally, with no validation. -/
def handleInvitePost (body : InviteBody) (store : Store) : UpdateResult × Store :=
  boardInvite body.roomId body.inviteeEmail store

/-! ### Helper lemmas about `find?`, `updateFirst` and `eraseP` -/

/-- `find?` after `updateFirst` with the same predicate returns the image of
the original find, provided the update preserves the predicate. -/
theorem find?_updateFirst (p : Board → Bool) (f : Board → Board)
    (hf : ∀ b, p b = true → p (f b) = true) :
    ∀ l : Store, (updateFirst p f l).find? p = (l.find? p).map f := by
  intro l
  induction l with
  | nil => rfl
  | cons b bs ih =>
    by_cases hb : p b = true
    · simp [updateFirst, hb, hf b hb]
    · have hb' : p b = false := by simpa using hb
      simp [updateFirst, hb', ih]

/-- Membership after `updateFirst`: every element is an original element or
the image of one. -/
theorem mem_updateFirst {p : Board → Bool} {f : Board → Board} {x : Board} :
    ∀ {l : Store}, x ∈ updateFirst p f l → x ∈ l ∨ ∃ y ∈ l, x = f y := by
  intro l
  induction l with
  | nil => intro h; exact absurd h (List.not_mem_nil x)
  | cons b bs ih =>
    intro hx
    by_cases hb : p b = true
    · simp only [updateFirst, hb, if_true] at hx
      rcases List.mem_cons.mp hx with h | h
      · exact Or.inr ⟨b, List.mem_cons_self b bs, h⟩
      · exact Or.inl (List.mem_cons_of_mem b h)
    · have hb' : p b = false := by simpa using hb
      simp only [updateFirst, hb', Bool.false_eq_true, if_false] at hx
      rcases List.mem_cons.mp hx with h | h
      · exact Or.inl (h ▸ List.mem_cons_self b bs)
      · rcases ih h with h' | ⟨y, hy, hxy⟩
        · exact Or.inl (List.mem_cons_of_mem b h')
        · exact Or.inr ⟨y, List.mem_cons_of_mem b hy, hxy⟩

/-- `updateFirst` does not change any projection the update function
preserves. -/
theorem map_updateFirst {α : Type} (p : Board → Bool) (f : Board → Board)
    (g : Board → α) (hg : ∀ b, g (f b) = g b) :
    ∀ l : Store, (updateFirst p f l).map g = l.map g := by
  intro l
  induction l with
  | nil => rfl
  | cons b bs ih =>
    by_cases hb : p b = true
    · simp [updateFirst, hb, hg]
    · have hb' : p b = false := by simpa using hb
      simp [updateFirst, hb', ih]

/-- `findOne` is `none` exactly when no document carries the roomId. -/
theorem findOne_eq_none_iff (roomId : String) (store : Store) :
    findOne roomId store = none ↔ ∀ b ∈ store, b.roomId ≠ roomId := by
  simp [findOne, List.find?_eq_none, roomFilter]

/-! ### C1: first save sets owner and empty collaborators; later saves keep
owner -/

/-- C1.  On a roomId with no record, `boardSave` creates one with
`owner = userEmail` and `collaborators = []`; on a roomId whose record exists,
a save by any identity updates only `name`, `elements` and `lastModified`,
leaving `owner` (and `collaborators`) as they were. -/
theorem claimC1 (R n u n2 u2 : String) (es es2 : List String)
    (now now2 : Nat) (store : Store) :
    (findOne R store = none →
      findOne R (boardSave R (some n) (some es) (some u) now store).2 =
        some ⟨R, some n, some es, some u, [], now⟩) ∧
    (∀ b, findOne R store = some b →
      findOne R (boardSave R (some n2) (some es2) (some u2) now2 store).2 =
        some { b with name := some n2, elements := some es2, lastModified := now2 }) := by
  constructor
  · intro hnone
    have hfind : store.find? (roomFilter (some R)) = none := hnone
    simp only [boardSave, hfind, findOne]
    rw [List.find?_append, hfind]
    simp [roomFilter]
  · intro b hb
    have hfind : store.find? (roomFilter (some R)) = some b := hb
    simp only [boardSave, hfind, findOne]
    rw [find?_updateFirst (roomFilter (some R))
      (fun b => { b with name := some n2, elements := some es2, lastModified := now2 })
      (fun _ hx => hx) store]
    rw [hfind]
    rfl

/-- Witness for C1 at a concrete store: first save on an empty store creates
the record; a second save by a different identity keeps the owner. -/
theorem claimC1_witness :
    findOne "r1" (boardSave "r1" (some "Untitled") (some []) (some "a@x.com") 0 []).2 =
      some ⟨"r1", some "Untitled", some [], some "a@x.com", [], 0⟩ ∧
    findOne "r1" (boardSave "r1" (some "n2") (some ["shape1"]) (some "b@x.com") 1
        [⟨"r1", some "Untitled", some [], some "a@x.com", [], 0⟩]).2 =
      some ⟨"r1", some "n2", some ["shape1"], some "a@x.com", [], 1⟩ := by
  constructor
  · exact (claimC1 "r1" "Untitled" "a@x.com" "n2" "u2" [] [] 0 1 []).1 rfl
  · exact (claimC1 "r1" "n" "u" "n2" "b@x.com" [] ["shape1"] 0 1
      [⟨"r1", some "Untitled", some [], some "a@x.com", [], 0⟩]).2
      ⟨"r1", some "Untitled", some [], some "a@x.com", [], 0⟩ (by decide)

/-! ### C2: a save on an existing record is a frame for owner and
collaborators -/

/-- C2.  When a record for `R` exists, `boardSave` leaves `roomId`, `owner`
and `collaborators` of every stored record unchanged, and the record for `R`
afterwards differs from before only in `name`, `elements` and
`lastModified`. -/
theorem claimC2 (R n : String) (es : List String) (u : Option String)
    (now : Nat) (store : Store) (b : Board) (hb : findOne R store = some b) :
    (boardSave R (some n) (some es) u now store).2.map
        (fun x => (x.roomId, x.owner, x.collaborators)) =
      store.map (fun x => (x.roomId, x.owner, x.collaborators)) ∧
    findOne R (boardSave R (some n) (some es) u now store).2 =
      some { b with name := some n, elements := some es, lastModified := now } := by
  have hfind : store.find? (roomFilter (some R)) = some b := hb
  constructor
  · simp only [boardSave, hfind]
    exact map_updateFirst (roomFilter (some R))
      (fun x => { x with name := some n, elements := some es, lastModified := now })
      (fun x => (x.roomId, x.owner, x.collaborators)) (fun _ => rfl) store
  · simp only [boardSave, hfind, findOne]
    rw [find?_updateFirst (roomFilter (some R))
      (fun x => { x with name := some n, elements := some es, lastModified := now })
      (fun _ hx => hx) store]
    rw [hfind]
    rfl

/-- Witness for C2: saving over an existing record keeps its owner and
collaborators while replacing name, elements and lastModified. -/
theorem claimC2_witness :
    (boardSave "r1" (some "n2") (some ["shape1"]) (some "b@x.com") 5
        [⟨"r1", some "n1", some [], some "a@x.com", [some "c@x.com"], 0⟩]).2.map
        (fun x => (x.roomId, x.owner, x.collaborators)) =
      [("r1", some "a@x.com", [some "c@x.com"])] ∧
    findOne "r1" (boardSave "r1" (some "n2") (some ["shape1"]) (some "b@x.com") 5
        [⟨"r1", some "n1", some [], some "a@x.com", [some "c@x.com"], 0⟩]).2 =
      some ⟨"r1", some "n2", some ["shape1"], some "a@x.com", [some "c@x.com"], 5⟩ :=
  claimC2 "r1" "n2" ["shape1"] (some "b@x.com") 5
    [⟨"r1", some "n1", some [], some "a@x.com", [some "c@x.com"], 0⟩]
    ⟨"r1", some "n1", some [], some "a@x.com", [some "c@x.com"], 0⟩ (by decide)

/-! ### C10: the requesting identity does not influence a non-first save -/

/-- C10.  On a store whose record for `R` exists, `boardSave` with identity
`u1` and with identity `u2` produce identical results (same result document
set and same reported counts), and collaborators are unchanged — the
requester is not added. -/
theorem claimC10 (R : String) (n : Option String) (es : Option (List String))
    (u1 u2 : Option String) (now : Nat) (store : Store) (b : Board)
    (hb : findOne R store = some b) :
    boardSave R n es u1 now store = boardSave R n es u2 now store ∧
    (boardSave R n es u1 now store).2.map Board.collaborators =
      store.map Board.collaborators := by
  have hfind : store.find? (roomFilter (some R)) = some b := hb
  constructor
  · simp [boardSave, hfind]
  · simp only [boardSave, hfind]
    exact map_updateFirst (roomFilter (some R))
      (fun x => { x with name := n, elements := es, lastModified := now })
      Board.collaborators (fun _ => rfl) store

/-- Witness for C10 at a concrete one-record store and two distinct
identities. -/
theorem claimC10_witness :
    boardSave "r1" (some "n") (some []) (some "u1@x.com") 3
        [⟨"r1", some "n0", some [], some "o@x.com", [], 0⟩] =
      boardSave "r1" (some "n") (some []) (some "u2@x.com") 3
        [⟨"r1", some "n0", some [], some "o@x.com", [], 0⟩] ∧
    (boardSave "r1" (some "n") (some []) (some "u1@x.com") 3
        [⟨"r1", some "n0", some [], some "o@x.com", [], 0⟩]).2.map Board.collaborators =
      [[]] :=
  claimC10 "r1" (some "n") (some []) (some "u1@x.com") (some "u2@x.com") 3
    [⟨"r1", some "n0", some [], some "o@x.com", [], 0⟩]
    ⟨"r1", some "n0", some [], some "o@x.com", [], 0⟩ (by decide)

/-! ### C5: invite is an idempotent set-add -/

/-- Composing two `updateFirst` passes with the same predicate gives a single
pass with the composed update, provided the first update preserves the
predicate. -/
theorem updateFirst_updateFirst (p : Board → Bool) (f g : Board → Board)
    (hf : ∀ b, p b = true → p (f b) = true) :
    ∀ l : Store, updateFirst p g (updateFirst p f l) =
      updateFirst p (fun b => g (f b)) l := by
  intro l
  induction l with
  | nil => rfl
  | cons b bs ih =>
    by_cases hb : p b = true
    · simp [updateFirst, hb, hf b hb]
    · have hb' : p b = false := by simpa using hb
      simp [updateFirst, hb', ih]

/-- `updateFirst` only looks at the update function on elements satisfying
the predicate. -/
theorem updateFirst_congr (p : Board → Bool) (f g : Board → Board)
    (h : ∀ b, p b = true → f b = g b) :
    ∀ l : Store, updateFirst p f l = updateFirst p g l := by
  intro l
  induction l with
  | nil => rfl
  | cons b bs ih =>
    by_cases hb : p b = true
    · simp [updateFirst, hb, h b hb]
    · have hb' : p b = false := by simpa using hb
      simp [updateFirst, hb', ih]

/-- The added value is a member after `$addToSet`. -/
theorem mem_addToSet (x : Option String) (xs : List (Option String)) :
    x ∈ addToSet x xs := by
  unfold addToSet
  by_cases h : x ∈ xs
  · simp [h]
  · simp [h]

/-- `$addToSet` of a value already present changes nothing. -/
theorem addToSet_of_mem {x : Option String} {xs : List (Option String)}
    (h : x ∈ xs) : addToSet x xs = xs := by
  simp [addToSet, h]

/-- `$addToSet` is idempotent. -/
theorem addToSet_idem (x : Option String) (xs : List (Option String)) :
    addToSet x (addToSet x xs) = addToSet x xs :=
  addToSet_of_mem (mem_addToSet x xs)

/-- C5.  Two consecutive invites of the same identity to the same room leave
the store exactly as after the first invite. -/
theorem claimC5 (R : String) (x : Option String) (store : Store) :
    (boardInvite (some R) x (boardInvite (some R) x store).2).2 =
      (boardInvite (some R) x store).2 := by
  cases h : store.find? (roomFilter (some R)) with
  | none => simp [boardInvite, h]
  | some b =>
    have h2 : (updateFirst (roomFilter (some R))
        (fun y => { y with collaborators := addToSet x y.collaborators })
          store).find? (roomFilter (some R)) =
        some { b with collaborators := addToSet x b.collaborators } := by
      rw [find?_updateFirst (roomFilter (some R))
        (fun y => { y with collaborators := addToSet x y.collaborators })
        (fun _ hx => hx) store, h]
      rfl
    simp only [boardInvite, h, h2]
    rw [updateFirst_updateFirst (roomFilter (some R))
      (fun y => { y with collaborators := addToSet x y.collaborators })
      (fun y => { y with collaborators := addToSet x y.collaborators })
      (fun _ hx => hx) store]
    exact updateFirst_congr _ _ _ (fun y _ => by simp [addToSet_idem]) store

/-! ### C9: invite on a roomId with no record is a no-op reporting zero
matches -/

/-- C9.  When no record for `R` exists, the invite `updateOne` (which has no
upsert option) matches nothing: it creates no record, leaves the store
unchanged, and reports zero matched and zero upserted documents. -/
theorem claimC9 (R : String) (x : Option String) (store : Store)
    (h : findOne R store = none) :
    boardInvite (some R) x store = (⟨0, 0⟩, store) := by
  have hfind : store.find? (roomFilter (some R)) = none := h
  simp [boardInvite, hfind]

/-- Witness for C9 on the empty store. -/
theorem claimC9_witness :
    boardInvite (some "r1") (some "c@x.com") [] = (⟨0, 0⟩, []) :=
  claimC9 "r1" (some "c@x.com") [] rfl

/-! ### C6: delete removes the record and is idempotent -/

/-- A store in which no two documents share a `roomId`; every store reachable
through the save and invite endpoints has this shape, since the upsert
inserts only when no match exists. -/
def UniqueRooms (store : Store) : Prop := (store.map Board.roomId).Nodup

/-- After erasing the first match from a duplicate-free store, no match
remains. -/
theorem find?_eraseP_of_uniqueRooms (R : String) :
    ∀ store : Store, UniqueRooms store →
      (store.eraseP (roomFilter (some R))).find? (roomFilter (some R)) = none := by
  intro store
  induction store with
  | nil => intro _; rfl
  | cons b bs ih =>
    intro hu
    have hu' := (List.nodup_cons.mp hu)
    by_cases hb : roomFilter (some R) b = true
    · rw [List.eraseP_cons_of_pos hb]
      rw [List.find?_eq_none]
      intro x hx hpx
      have hxR : x.roomId = R := by simpa [roomFilter] using hpx
      have hbR : b.roomId = R := by simpa [roomFilter] using hb
      exact hu'.1 (by
        rw [hbR, ← hxR]
        exact List.mem_map.mpr ⟨x, hx, rfl⟩)
    · rw [List.eraseP_cons_of_neg hb]
      rw [List.find?_cons_of_neg _ hb]
      exact ih hu'.2

/-- C6.  Deleting a roomId with no record is a no-op reporting zero deleted
documents; deleting on a duplicate-free store leaves no record for that
roomId, so after any delete the lookup is empty. -/
theorem claimC6 (R : String) (store : Store) :
    (findOne R store = none → boardDelete R store = (⟨0⟩, store)) ∧
    (UniqueRooms store → findOne R (boardDelete R store).2 = none) := by
  constructor
  · intro h
    have hfind : store.find? (roomFilter (some R)) = none := h
    simp [boardDelete, hfind]
  · intro hu
    cases h : store.find? (roomFilter (some R)) with
    | none => simp [boardDelete, h, findOne]
    | some b =>
      simp only [boardDelete, h, findOne]
      exact find?_eraseP_of_uniqueRooms R store hu

/-- Witness for C6: deleting a nonexistent room on the empty store, and
deleting an existing room from a one-record store. -/
theorem claimC6_witness :
    boardDelete "r1" [] = (⟨0⟩, []) ∧
    findOne "r1" (boardDelete "r1"
      [⟨"r1", some "n", some [], some "a@x.com", [], 0⟩]).2 = none := by
  constructor
  · exact (claimC6 "r1" []).1 rfl
  · exact (claimC6 "r1" [⟨"r1", some "n", some [], some "a@x.com", [], 0⟩]).2
      (by simp [UniqueRooms])

/-! ### C7: the source does not reject malformed save/invite bodies -/

/-- Counterexample to C7 as stated: a save request whose body is missing all
of `name`, `elements` and `userEmail` is not rejected — the handler still
runs the upsert, so the store changes (a record is created). -/
theorem claimC7_counterexample :
    (handleSavePut "r1" ⟨none, none, none⟩ 0 []).2 ≠ [] := by decide

/-- C7 amended: the handlers perform no validation.  A save missing every
body field on an unseen roomId still performs the upsert, creating a record
whose `name`, `elements` and `owner` are null; an invite missing `roomId`
matches no document and leaves the store unchanged. -/
theorem claimC7_amended (R : String) (now : Nat) (store : Store)
    (h : findOne R store = none) :
    findOne R (handleSavePut R ⟨none, none, none⟩ now store).2 =
      some ⟨R, none, none, none, [], now⟩ ∧
    ∀ (x : Option String) (store2 : Store),
      (handleInvitePost ⟨none, x⟩ store2).2 = store2 := by
  constructor
  · have hfind : store.find? (roomFilter (some R)) = none := h
    simp only [handleSavePut, boardSave, hfind, findOne]
    rw [List.find?_append, hfind]
    simp [roomFilter]
  · intro x store2
    have hfind : store2.find? (roomFilter none) = none := by
      rw [List.find?_eq_none]
      intro b _ hpb
      simp [roomFilter] at hpb
    simp [handleInvitePost, boardInvite, hfind]

/-- Witness for the amended C7 on the empty store. -/
theorem claimC7_amended_witness :
    findOne "r1" (handleSavePut "r1" ⟨none, none, none⟩ 0 []).2 =
      some ⟨"r1", none, none, none, [], 0⟩ ∧
    (handleInvitePost ⟨none, some "c@x.com"⟩ []).2 = [] :=
  ⟨(claimC7_amended "r1" 0 [] rfl).1,
   (claimC7_amended "r1" 0 [] rfl).2 (some "c@x.com") []⟩

/-! ### The socket.io session layer

`io.on('connection', ...)` registers three handlers.  `socket.join(roomId)`
adds the socket to a room (socket.io rooms are sets, so a repeated join is a
no-op); the transport removes the socket from every room on disconnect, and
removing a socket that is in no room does nothing.  `socket.to(roomId).emit`
delivers the event to every socket currently in the room except the sender.
We embed the room state as the list of (socketId, roomId) membership pairs
and a broadcast as the list of deliveries it produces. -/

/-- Session registry state: the current (socketId, roomId) memberships. -/
abbrev SessState := List (String × String)

/-- The `join-room` handler: `socket.join(roomId)`.  Rooms are sets, so a
membership already present is not duplicated. -/
def joinRoom (c R : String) (st : SessState) : SessState :=
  if (c, R) ∈ st then st else (c, R) :: st

/-- The sockets currently in room `R`. -/
def membersOf (R : String) (st : SessState) : List String :=
  (st.filter (fun p => p.2 == R)).map Prod.fst

/-- Removal of a connection on transport disconnect: the socket leaves every
room it is in. -/
def remove (c : String) (st : SessState) : SessState :=
  st.filter (fun p => p.1 != c)

/-- One event delivered to one socket. -/
structure Delivery where
  target : String
  event : String
  payload : List String
deriving Repr, DecidableEq

/-- The `drawing-update` handler:
`socket.to(data.roomId).emit('receive-drawing', data.elements)` — the
deliveries produced are one `receive-drawing` carrying the elements to each
current member of the room other than the sender. -/
def drawingUpdate (sender R : String) (elements : List String)
    (st : SessState) : List Delivery :=
  ((membersOf R st).filter (fun c => c != sender)).map
    (fun c => ⟨c, "receive-drawing", elements⟩)

/-! ### C3: drawing-update reaches exactly the other current members -/

/-- C3.  A `drawing-update` from `s` for room `R` produces deliveries to
exactly the members of `R` at the moment of the call other than `s`; every
delivery is a `receive-drawing` carrying the sent elements; the sender
receives nothing; and a connection not yet a member at the call — even one
that joins immediately afterwards — receives nothing. -/
theorem claimC3 (s R : String) (elems : List String) (st : SessState) :
    (∀ c, (∃ d ∈ drawingUpdate s R elems st, d.target = c) ↔
      (c ∈ membersOf R st ∧ c ≠ s)) ∧
    (∀ d ∈ drawingUpdate s R elems st,
      d.event = "receive-drawing" ∧ d.payload = elems) ∧
    (∀ d ∈ drawingUpdate s R elems st, d.target ≠ s) ∧
    (∀ c, c ∉ membersOf R st → c ∈ membersOf R (joinRoom c R st) ∧
      ∀ d ∈ drawingUpdate s R elems st, d.target ≠ c) := by
  refine ⟨fun c => ?_, fun d hd => ?_, fun d hd => ?_, fun c hc => ⟨?_, fun d hd => ?_⟩⟩
  · constructor
    · rintro ⟨d, hd, rfl⟩
      rcases List.mem_map.mp hd with ⟨c', hc', rfl⟩
      have h := List.mem_filter.mp hc'
      exact ⟨h.1, by simpa using h.2⟩
    · rintro ⟨hmem, hne⟩
      exact ⟨⟨c, "receive-drawing", elems⟩,
        List.mem_map.mpr ⟨c, List.mem_filter.mpr ⟨hmem, by simpa using hne⟩, rfl⟩, rfl⟩
  · rcases List.mem_map.mp hd with ⟨c', _, rfl⟩
    exact ⟨rfl, rfl⟩
  · rcases List.mem_map.mp hd with ⟨c', hc', rfl⟩
    have h := List.mem_filter.mp hc'
    simpa using h.2
  · unfold joinRoom membersOf
    by_cases h : (c, R) ∈ st
    · rw [if_pos h]
      exact List.mem_map.mpr ⟨(c, R), List.mem_filter.mpr ⟨h, by simp⟩, rfl⟩
    · rw [if_neg h]
      exact List.mem_map.mpr
        ⟨(c, R), List.mem_filter.mpr ⟨List.mem_cons_self _ _, by simp⟩, rfl⟩
  · rcases List.mem_map.mp hd with ⟨c', hc', rfl⟩
    intro hcc
    exact hc (hcc ▸ (List.mem_filter.mp hc').1)

/-- Witness for C3 at the spec scenario: A and B join `r1`, A sends
`[shape1]`; B gets a delivery and A gets none. -/
theorem claimC3_witness :
    (∃ d ∈ drawingUpdate "A" "r1" ["shape1"]
        (joinRoom "B" "r1" (joinRoom "A" "r1" [])), d.target = "B") ∧
    (∀ d ∈ drawingUpdate "A" "r1" ["shape1"]
        (joinRoom "B" "r1" (joinRoom "A" "r1" [])), d.target ≠ "A") :=
  ⟨((claimC3 "A" "r1" ["shape1"] (joinRoom "B" "r1" (joinRoom "A" "r1" []))).1
      "B").mpr ⟨by decide, by decide⟩,
   (claimC3 "A" "r1" ["shape1"] (joinRoom "B" "r1" (joinRoom "A" "r1" []))).2.2.1⟩

/-! ### C4: join adds membership; disconnect removes it; removal is a
no-op for unknown connections -/

/-- C4.  After `joinRoom c R`, `c` is a member of `R`; after the disconnect
removal of `c`, `c` is a member of no room; and removing a connection that is
registered in no room leaves the session state exactly as it was. -/
theorem claimC4 (c R : String) (st : SessState) :
    c ∈ membersOf R (joinRoom c R st) ∧
    (∀ R2, c ∉ membersOf R2 (remove c st)) ∧
    ((∀ R2, c ∉ membersOf R2 st) → remove c st = st) := by
  refine ⟨?_, fun R2 hc => ?_, fun h => ?_⟩
  · unfold joinRoom membersOf
    by_cases h : (c, R) ∈ st
    · rw [if_pos h]
      exact List.mem_map.mpr ⟨(c, R), List.mem_filter.mpr ⟨h, by simp⟩, rfl⟩
    · rw [if_neg h]
      exact List.mem_map.mpr
        ⟨(c, R), List.mem_filter.mpr ⟨List.mem_cons_self _ _, by simp⟩, rfl⟩
  · rcases List.mem_map.mp hc with ⟨p, hp, hpc⟩
    have h1 := List.mem_filter.mp hp
    have h2 := List.mem_filter.mp h1.1
    have : p.1 ≠ c := by simpa using h2.2
    exact this hpc
  · rw [remove, List.filter_eq_self]
    intro p hp
    by_cases hpc : p.1 = c
    · exact absurd (List.mem_map.mpr
        ⟨p, List.mem_filter.mpr ⟨hp, by simp⟩, hpc⟩) (h p.2)
    · simpa using hpc

/-- Witness for C4: a join, a disconnect removal, and a removal of an
unregistered connection on concrete states. -/
theorem claimC4_witness :
    "A" ∈ membersOf "r1" (joinRoom "A" "r1" []) ∧
    "A" ∉ membersOf "r1" (remove "A" [("A", "r1")]) ∧
    remove "A" [("B", "r1")] = [("B", "r1")] :=
  ⟨(claimC4 "A" "r1" []).1,
   (claimC4 "A" "r1" [("A", "r1")]).2.1 "r1",
   (claimC4 "A" "r1" [("B", "r1")]).2.2 (by
    intro R2 h
    rcases List.mem_map.mp h with ⟨p, hp, hfst⟩
    have hmem := (List.mem_filter.mp hp).1
    rw [List.mem_singleton] at hmem
    subst hmem
    exact absurd hfst (by decide))⟩

/-! ### C8: reachable stores — owner present exactly on saved boards -/

/-- One storage operation of the board API, with the identity arguments the
endpoints receive. -/
inductive Op where
  | save (roomId name : String) (elements : List String) (userEmail : String) (now : Nat)
  | invite (roomId inviteeEmail : String)
  | del (roomId : String)
deriving Repr, DecidableEq

/-- Effect of one operation on the `boards` collection. -/
def applyOp (store : Store) (op : Op) : Store :=
  match op with
  | .save R n es u now => (boardSave R (some n) (some es) (some u) now store).2
  | .invite R x => (boardInvite (some R) (some x) store).2
  | .del R => (boardDelete R store).2

/-- Effect of a whole sequence of operations. -/
def applyOps (ops : List Op) (store : Store) : Store := ops.foldl applyOp store

/-- Whether an operation is a save for room `R`. -/
def savesRoom (R : String) : Op → Bool
  | .save R2 _ _ _ _ => R2 == R
  | _ => false

/-- An operation that is not a save for `R` cannot create a record for
`R`. -/
theorem findOne_applyOp_none (R : String) (store : Store) (op : Op)
    (h : findOne R store = none) (hop : savesRoom R op = false) :
    findOne R (applyOp store op) = none := by
  rw [findOne_eq_none_iff] at h ⊢
  cases op with
  | save R2 n es u now =>
    have hR2 : R2 ≠ R := by simpa [savesRoom] using hop
    cases hf : store.find? (roomFilter (some R2)) with
    | some b =>
      simp only [applyOp, boardSave, hf]
      intro x hx
      rcases mem_updateFirst hx with hx' | ⟨y, hy, rfl⟩
      · exact h x hx'
      · exact h y hy
    | none =>
      simp only [applyOp, boardSave, hf]
      intro x hx
      rcases List.mem_append.mp hx with hx' | hx'
      · exact h x hx'
      · rw [List.mem_singleton] at hx'
        subst hx'
        exact hR2
  | invite R2 x0 =>
    cases hf : store.find? (roomFilter (some R2)) with
    | some b =>
      simp only [applyOp, boardInvite, hf]
      intro x hx
      rcases mem_updateFirst hx with hx' | ⟨y, hy, rfl⟩
      · exact h x hx'
      · exact h y hy
    | none =>
      simp only [applyOp, boardInvite, hf]
      exact h
  | del R2 =>
    cases hf : store.find? (roomFilter (some R2)) with
    | some b =>
      simp only [applyOp, boardDelete, hf]
      intro x hx
      exact h x (List.mem_of_mem_eraseP hx)
    | none =>
      simp only [applyOp, boardDelete, hf]
      exact h

/-- Every record of the store carries an owner value. -/
def OwnersPresent (store : Store) : Prop := ∀ b ∈ store, b.owner.isSome = true

/-- Every operation preserves the presence of owners: a save inserts the
requesting identity as owner, and neither updates nor deletes clear it. -/
theorem ownersPresent_applyOp (store : Store) (op : Op)
    (h : OwnersPresent store) : OwnersPresent (applyOp store op) := by
  cases op with
  | save R n es u now =>
    cases hf : store.find? (roomFilter (some R)) with
    | some b =>
      simp only [applyOp, boardSave, hf]
      intro x hx
      rcases mem_updateFirst hx with hx' | ⟨y, hy, rfl⟩
      · exact h x hx'
      · exact h y hy
    | none =>
      simp only [applyOp, boardSave, hf]
      intro x hx
      rcases List.mem_append.mp hx with hx' | hx'
      · exact h x hx'
      · rw [List.mem_singleton] at hx'
        subst hx'
        rfl
  | invite R x0 =>
    cases hf : store.find? (roomFilter (some R)) with
    | some b =>
      simp only [applyOp, boardInvite, hf]
      intro x hx
      rcases mem_updateFirst hx with hx' | ⟨y, hy, rfl⟩
      · exact h x hx'
      · exact h y hy
    | none =>
      simp only [applyOp, boardInvite, hf]
      exact h
  | del R =>
    cases hf : store.find? (roomFilter (some R)) with
    | some b =>
      simp only [applyOp, boardDelete, hf]
      intro x hx
      exact h x (List.mem_of_mem_eraseP hx)
    | none =>
      simp only [applyOp, boardDelete, hf]
      exact h

/-- A sequence without a save for `R` never creates a record for `R`. -/
theorem findOne_applyOps_none (R : String) (ops : List Op) :
    ∀ store : Store, findOne R store = none →
      (∀ op ∈ ops, savesRoom R op = false) →
      findOne R (applyOps ops store) = none := by
  induction ops with
  | nil => intro store h _; exact h
  | cons op ops ih =>
    intro store h hops
    exact ih (applyOp store op)
      (findOne_applyOp_none R store op h (hops op (List.mem_cons_self _ _)))
      (fun o ho => hops o (List.mem_cons_of_mem _ ho))

/-- Owner presence is preserved along any operation sequence. -/
theorem ownersPresent_applyOps (ops : List Op) :
    ∀ store : Store, OwnersPresent store → OwnersPresent (applyOps ops store) := by
  induction ops with
  | nil => intro store h; exact h
  | cons op ops ih =>
    intro store h
    exact ih (applyOp store op) (ownersPresent_applyOp store op h)

/-- Every operation preserves uniqueness of roomIds: the upsert inserts only
when no record matched, and updates and deletes never change a roomId.  So
every store reachable through the endpoints satisfies `UniqueRooms`, which
justifies that hypothesis on the delete theorem. -/
theorem uniqueRooms_applyOp (store : Store) (op : Op)
    (h : UniqueRooms store) : UniqueRooms (applyOp store op) := by
  cases op with
  | save R n es u now =>
    cases hf : store.find? (roomFilter (some R)) with
    | some b =>
      simp only [applyOp, boardSave, hf]
      unfold UniqueRooms
      rw [map_updateFirst (roomFilter (some R))
        (fun x => { x with name := some n, elements := some es, lastModified := now })
        Board.roomId (fun _ => rfl) store]
      exact h
    | none =>
      simp only [applyOp, boardSave, hf]
      unfold UniqueRooms
      rw [List.map_append, List.nodup_append]
      refine ⟨h, List.nodup_singleton R, fun a ha => ?_⟩
      rcases List.mem_map.mp ha with ⟨x, hx, rfl⟩
      have hne : x.roomId ≠ R := by
        have := List.find?_eq_none.mp hf x hx
        simpa [roomFilter] using this
      simpa using hne
  | invite R x0 =>
    cases hf : store.find? (roomFilter (some R)) with
    | some b =>
      simp only [applyOp, boardInvite, hf]
      unfold UniqueRooms
      rw [map_updateFirst (roomFilter (some R))
        (fun x => { x with collaborators := addToSet (some x0) x.collaborators })
        Board.roomId (fun _ => rfl) store]
      exact h
    | none =>
      simp only [applyOp, boardInvite, hf]
      exact h
  | del R =>
    cases hf : store.find? (roomFilter (some R)) with
    | some b =>
      simp only [applyOp, boardDelete, hf]
      exact h.sublist ((List.eraseP_sublist store).map Board.roomId)
    | none =>
      simp only [applyOp, boardDelete, hf]
      exact h

/-- Uniqueness of roomIds holds in every reachable store. -/
theorem uniqueRooms_applyOps (ops : List Op) :
    ∀ store : Store, UniqueRooms store → UniqueRooms (applyOps ops store) := by
  induction ops with
  | nil => intro store h; exact h
  | cons op ops ih =>
    intro store h
    exact ih (applyOp store op) (uniqueRooms_applyOp store op h)

/-- C8.  Starting from the empty store, along any sequence of save, invite
and delete operations: a roomId never saved has no record (its lookup is
empty), every record that exists has its owner set, and the lookup of a
never-saved roomId differs from the lookup of a board saved with an empty
elements sequence. -/
theorem claimC8 (ops : List Op) (R : String) :
    ((∀ op ∈ ops, savesRoom R op = false) → findOne R (applyOps ops []) = none) ∧
    (∀ b, findOne R (applyOps ops []) = some b → b.owner.isSome = true) ∧
    findOne "r1" (applyOps [Op.save "r1" "Untitled" [] "a@x.com" 0] []) ≠
      findOne "r1" (applyOps [] []) := by
  refine ⟨fun hops => findOne_applyOps_none R ops [] rfl hops,
    fun b hb => ?_, by decide⟩
  exact ownersPresent_applyOps ops []
    (fun x hx => absurd hx (List.not_mem_nil x)) b (List.mem_of_find?_eq_some hb)

/-- Witness for C8: a sequence with no save for the room leaves its lookup
empty, and a saved board's owner is present. -/
theorem claimC8_witness :
    findOne "rX" (applyOps [Op.invite "a" "x", Op.del "b"] []) = none ∧
    (⟨"r1", some "Untitled", some [], some "a@x.com", [], 0⟩ : Board).owner.isSome = true :=
  ⟨(claimC8 [Op.invite "a" "x", Op.del "b"] "rX").1 (by decide),
   (claimC8 [Op.save "r1" "Untitled" [] "a@x.com" 0] "r1").2.1
     ⟨"r1", some "Untitled", some [], some "a@x.com", [], 0⟩ (by decide)⟩

end SketchSpace
